import Mathlib

/-!
Verification development for the LEO-Py example scripts
(`examples/example_lognorm.py` and `examples/example_lognorm_MAR.py`).

The scripts build a data table, hand it to the likelihood engine, and wrap
the engine's density evaluation in minus-log-likelihood objectives for an
external optimizer.  The definitions below embed the scripts' data handling
and objective wrappers; the engine itself is abstracted as a function
producing the density vector `pp`, since the wrappers' control flow only
inspects `pp` for zeros.  Densities are modelled as exact rationals.
-/

namespace Leopy

/-- Outcome of a minus-log-likelihood wrapper.  The wrappers either return a
numeric sentinel (`1000.`), `np.inf`, or an expression of the form
`-sum(log(pp))/n` (resp. `-sum(log(pp))` in the MAR example).  The log-sum is
kept symbolic: the constructor records exactly the list of density entries
that the script would feed to `np.log`, and the divisor. -/
inductive ObjVal where
  | sentinel : ObjVal
  | infty : ObjVal
  | negLogSumDiv : List ℚ → ℕ → ObjVal
  | negLogSum : List ℚ → ObjVal
  deriving DecidableEq

/-- Number of exactly-zero entries of the density vector: `np.sum(pp==0)`. -/
def countZero (pp : List ℚ) : ℕ := pp.countP (fun q => decide (q = 0))

/-- The correlation matrix `R = np.array([[1., rho], [rho, 1.]])` built by
every wrapper from the parameter `rho = x[6]`. -/
def R2 (rho : ℚ) : Fin 2 → Fin 2 → ℚ := ![![1, rho], ![rho, 1]]

/-- Matrix-vector product for a 2x2 matrix, spelling out the two rows. -/
def mulVec2 (M : Fin 2 → Fin 2 → ℚ) (v : Fin 2 → ℚ) : Fin 2 → ℚ :=
  ![M 0 0 * v 0 + M 0 1 * v 1, M 1 0 * v 0 + M 1 1 * v 1]

/-- `m` is an eigenvalue of the 2x2 matrix `M`: some nonzero vector `v`
satisfies `M v = m v`. -/
def IsEigval (M : Fin 2 → Fin 2 → ℚ) (m : ℚ) : Prop :=
  ∃ v : Fin 2 → ℚ, (v 0 ≠ 0 ∨ v 1 ≠ 0) ∧ mulVec2 M v = fun i => m * v i

/-- The list of eigenvalues of `R2 rho`, as `np.linalg.eigvalsh(R)` returns
them for this symmetric matrix; `eigvalsh2_correct` below proves they are
exactly the eigenvalues of `R2 rho`. -/
def eigvalsh2 (rho : ℚ) : List ℚ := [1 - rho, 1 + rho]

/-- The wrappers' guard `np.any(np.linalg.eigvalsh(R) < 0)`. -/
def hasNegEig (rho : ℚ) : Bool := (eigvalsh2 rho).any (fun m => decide (m < 0))

/-- The population-parameter bundle a wrapper passes to the engine:
`loc_true = x[0:2]`, `scale_true = x[2:4]`, `shape_true = x[4:6]`,
`R_true = R2 x[6]`. -/
structure Params where
  loc : Fin 2 → ℚ
  scale : Fin 2 → ℚ
  shape : Fin 2 → ℚ
  R : Fin 2 → Fin 2 → ℚ

/-- Slicing of the optimizer's parameter vector `x` done by every wrapper. -/
def mkParams (x : Fin 7 → ℚ) : Params :=
  { loc := ![x 0, x 1], scale := ![x 2, x 3], shape := ![x 4, x 5]
    R := R2 (x 6) }

/-- Sample size of `example_lognorm.py` (`Ndata = 300`). -/
def Ndata : ℕ := 300

/-- Sample size of `example_lognorm_MAR.py` (`Ndata = 500`). -/
def NdataMAR : ℕ := 500

/-- Wrapper `f_mlnlike` of `example_lognorm.py`.  The engine call
`like.p(loc_true, scale_true, shape_true=shape_true, R_true=R)` is abstracted
as the argument `engine`.  The returned Boolean records whether the engine
was invoked on this call. -/
def f_mlnlike (engine : Params → List ℚ) (x : Fin 7 → ℚ) : Bool × ObjVal :=
  if hasNegEig (x 6) then (false, ObjVal.sentinel)
  else if 0 < countZero (engine (mkParams x)) then (true, ObjVal.sentinel)
  else (true, ObjVal.negLogSumDiv (engine (mkParams x)) Ndata)

/-- Wrapper `f_mlnlike2` of `example_lognorm.py`: same eigenvalue guard, but
when between 1 and 7 density entries are exactly zero it returns the partial
sum `-np.sum(np.log(pp[pp>0]))/Ndata` over the strictly positive entries. -/
def f_mlnlike2 (engine : Params → List ℚ) (x : Fin 7 → ℚ) : Bool × ObjVal :=
  if hasNegEig (x 6) then (false, ObjVal.sentinel)
  else if 0 < countZero (engine (mkParams x)) then
    if countZero (engine (mkParams x)) ≤ 7 then
      (true, ObjVal.negLogSumDiv
        ((engine (mkParams x)).filter (fun q => decide (0 < q))) Ndata)
    else (true, ObjVal.sentinel)
  else (true, ObjVal.negLogSumDiv (engine (mkParams x)) Ndata)

/-- Wrapper `f_mlnlike` of `example_lognorm_MAR.py`: no eigenvalue guard at
all; it returns `np.inf` when any density entry is zero and otherwise the
undivided `-np.sum(np.log(pp))`. -/
def f_mlnlikeMAR (engine : Params → List ℚ) (x : Fin 7 → ℚ) : Bool × ObjVal :=
  if 0 < countZero (engine (mkParams x)) then (true, ObjVal.infty)
  else (true, ObjVal.negLogSum (engine (mkParams x)))

/-- A data cell: `none` models a NaN (missing value), `some q` an observed
value. -/
abbrev Cell := Option ℚ

/-- A data row as a vector of cells, one per dimension. -/
abbrev Row := List Cell

/-- Row with every dimension missing: `np.all(np.isnan(row))`. -/
def allMissing (r : Row) : Bool := r.all (fun c => c.isNone)

/-- Complete row: `np.all(~np.isnan(row))`. -/
def isCompleteRow (r : Row) : Bool := r.all (fun c => c.isSome)

/-- Modelled from the spec: the likelihood engine `leopy.Likelihood.p` is not
among the source files (only the example scripts are).  Per the spec, a row
with all dimensions missing yields density exactly `1` (no information), and
a row with at least one observed dimension gets the joint density of its
observed part, abstracted here as an arbitrary function `jd` of the row. -/
def rowDensity (jd : Row → ℚ) (r : Row) : ℚ :=
  if allMissing r then 1 else jd r

/-- Modelled from the spec: the engine's density evaluation maps each row of
the observation store to its per-row density, preserving row order. -/
def likeP (jd : Row → ℚ) (rows : List Row) : List ℚ := rows.map (rowDensity jd)

/-- Boolean-mask row selection `a[mask]` of numpy: keep, in order, the
entries of `xs` whose mask entry is `true`. -/
def maskSelect {α : Type} : List Bool → List α → List α
  | b :: m, z :: zs => if b then z :: maskSelect m zs else maskSelect m zs
  | _, _ => []

/-- The mask `np.all(~np.isnan(y), axis=1)` of the MAR example. -/
def completeMask (y : List Row) : List Bool := y.map isCompleteRow

/-- Complete-case values `ycc = y[np.all(~np.isnan(y), axis=1)]`. -/
def ycc (y : List Row) : List Row := maskSelect (completeMask y) y

/-- Complete-case uncertainties `eycc = ey[np.all(~np.isnan(y), axis=1)]`:
note the mask is computed from `y`, not from `ey`. -/
def eycc (y : List Row) (ey : List (List ℚ)) : List (List ℚ) :=
  maskSelect (completeMask y) ey

/-- A pandas DataFrame as the examples build it: a list of column names and,
in the same order, the column data.  `pd.DataFrame(np.array([c0, c1, c2,
c3]).T, columns=ns)` binds column `ns[k]` of the frame to the list `ck`. -/
structure DataFrame where
  cols : List String
  data : List (List ℚ)

/-- Column lookup by name in a DataFrame. -/
def getCol (d : DataFrame) (n : String) : Option (List ℚ) :=
  List.lookup n (d.cols.zip d.data)

/-- The DataFrame construction shared by both example scripts:
`pd.DataFrame(np.array([y[:, 0], y[:, 1], ey[:, 0], ey[:, 1]]).T,
columns=['v0', 'v1', 'e_v0', 'e_v1'])`. -/
def mkExampleDF (y0 y1 e0 e1 : List ℚ) : DataFrame :=
  { cols := ["v0", "v1", "e_v0", "e_v1"], data := [y0, y1, e0, e1] }

/-- The spec's input-table naming contract for dimension count `D`: value
columns `v0..v(D-1)` followed by paired uncertainty columns `e_v0..`. -/
def contractCols (D : ℕ) : List String :=
  (List.range D).map (fun i => "v" ++ toString i) ++
    (List.range D).map (fun i => "e_v" ++ toString i)

/-- The helper `logistic` of `example_lognorm_MAR.py`: entries below 20 get
`np.exp(x)/(np.exp(x)+1.)`, entries at or above 20 keep the initial value 1
(the guard avoids overflow of `np.exp` for large arguments). -/
noncomputable def logistic (x : ℝ) : ℝ :=
  if x < 20 then Real.exp x / (Real.exp x + 1) else 1

/-- Bernoulli parameter with which column 1 of a row `y` is made missing:
`logistic(y[:, 0] - 3.)`. -/
noncomputable def missProbCol1 (y : Fin 2 → ℝ) : ℝ := logistic (y 0 - 3)

/-- Bernoulli parameter with which column 0 of a row `y` is made missing:
`logistic(y[:, 1] - 6.)`. -/
noncomputable def missProbCol0 (y : Fin 2 → ℝ) : ℝ := logistic (y 1 - 6)

/-- Standard normal CDF `scipy.stats.norm.cdf`, embedded as the exact real
integral of the standard Gaussian density. -/
noncomputable def normCDF (x : ℝ) : ℝ :=
  (Real.sqrt (2 * Real.pi))⁻¹ * ∫ t in Set.Iic x, Real.exp (-(t ^ 2) / 2)

/-- Standard normal quantile `scipy.stats.norm.ppf`: the inverse of the
standard normal CDF. -/
noncomputable def normPPF : ℝ → ℝ := Function.invFun normCDF

/-- Log-normal CDF `scipy.stats.lognorm.cdf(y, s, loc, scale)`: equals
`Phi(log((y - loc)/scale)/s)` on the support `y > loc` and `0` below it. -/
noncomputable def lognormCDF (s loc scale y : ℝ) : ℝ :=
  if loc < y then normCDF (Real.log ((y - loc) / scale) / s) else 0

/-- Log-normal quantile `scipy.stats.lognorm.ppf(p, s, loc, scale)`:
`loc + scale * exp(s * Phi_inv(p))`. -/
noncomputable def lognormPPF (s loc scale p : ℝ) : ℝ :=
  loc + scale * Real.exp (s * normPPF p)

/-- The error-free synthetic value of both examples:
`y_true = lognorm.ppf(norm.cdf(x), shape, loc=loc, scale=scale)` applied to
one Gaussian coordinate `x`. -/
noncomputable def yTrue (s loc scale x : ℝ) : ℝ := lognormPPF s loc scale (normCDF x)

lemma eigvalsh2_correct (rho m : ℚ) :
    m ∈ eigvalsh2 rho ↔ IsEigval (R2 rho) m := by
  constructor
  · intro hm
    simp only [eigvalsh2, List.mem_cons, List.not_mem_nil, or_false] at hm
    rcases hm with rfl | rfl
    · refine ⟨![1, -1], Or.inl (by norm_num), ?_⟩
      funext i
      fin_cases i <;> simp [mulVec2, R2] <;> ring
    · refine ⟨![1, 1], Or.inl (by norm_num), ?_⟩
      funext i
      fin_cases i <;> (simp [mulVec2, R2]; try ring)
  · rintro ⟨v, hv, heq⟩
    have e0 := congrFun heq 0
    have e1 := congrFun heq 1
    simp only [mulVec2, R2, Matrix.cons_val_zero, Matrix.cons_val_one,
      Matrix.head_cons, one_mul] at e0 e1
    simp only [eigvalsh2, List.mem_cons, List.not_mem_nil, or_false]
    rcases eq_or_ne (v 0 + v 1) 0 with hs | hs
    · have hv0 : v 0 ≠ 0 := by
        intro h0
        have h1 : v 1 = 0 := by linarith
        rcases hv with h | h
        · exact h h0
        · exact h h1
      have hv1 : v 1 = -v 0 := by linarith
      left
      have key : (1 - rho) * v 0 = m * v 0 := by
        rw [hv1] at e0
        ring_nf
        ring_nf at e0
        linarith
      have := mul_right_cancel₀ hv0 key
      linarith
    · right
      have key : (1 + rho) * (v 0 + v 1) = m * (v 0 + v 1) := by
        ring_nf
        ring_nf at e0 e1
        linarith
      have := mul_right_cancel₀ hs key
      linarith

lemma zero_notMem_of_countZero_eq_zero {pp : List ℚ} (h : countZero pp = 0) :
    (0 : ℚ) ∉ pp := by
  intro hmem
  have hall := List.countP_eq_zero.mp h 0 hmem
  simp at hall

lemma zero_notMem_filter_pos (pp : List ℚ) :
    (0 : ℚ) ∉ pp.filter (fun q => decide (0 < q)) := by
  intro h
  have := (List.mem_filter.mp h).2
  simp at this

/-- Claim C2 counterexample: at the parameter vector with `x[6] = 2` the
correlation matrix has the negative eigenvalue `1 - 2`, yet the MAR example's
wrapper (one of the claim's minus-log-likelihood wrappers) still invokes the
engine and does not return the sentinel `1000.` — it performs no eigenvalue
validation at all. -/
theorem claim_C2_counterexample :
    hasNegEig ((fun _ : Fin 7 => (2 : ℚ)) 6) = true ∧
    (f_mlnlikeMAR (fun _ => [1]) (fun _ : Fin 7 => (2 : ℚ))).1 = true ∧
    (f_mlnlikeMAR (fun _ => [1]) (fun _ : Fin 7 => (2 : ℚ))).2 ≠
      ObjVal.sentinel := by
  have h : hasNegEig ((fun _ : Fin 7 => (2 : ℚ)) 6) = true := by
    simp only [hasNegEig, eigvalsh2, List.any_cons, List.any_nil,
      Bool.or_false, Bool.or_eq_true, decide_eq_true_eq]
    left
    norm_num
  have hc : countZero [(1 : ℚ)] = 0 := by
    norm_num [countZero, List.countP_cons]
  refine ⟨h, ?_, ?_⟩ <;> simp [f_mlnlikeMAR, hc]

/-- Claim C2 (amended): in `example_lognorm.py` both wrappers `f_mlnlike`
and `f_mlnlike2` validate the 2x2 correlation matrix built from `x[6]` and,
whenever it has a negative eigenvalue, return the sentinel `1000.` without
invoking the engine; the MAR example's wrapper performs no eigenvalue
validation and always invokes the engine. -/
theorem claim_C2 (engine : Params → List ℚ) (x : Fin 7 → ℚ)
    (h : hasNegEig (x 6) = true) :
    f_mlnlike engine x = (false, ObjVal.sentinel) ∧
    f_mlnlike2 engine x = (false, ObjVal.sentinel) ∧
    (f_mlnlikeMAR engine x).1 = true := by
  refine ⟨by simp [f_mlnlike, h], by simp [f_mlnlike2, h], ?_⟩
  by_cases hc : 0 < countZero (engine (mkParams x)) <;> simp [f_mlnlikeMAR, hc]

/-- Witness for claim C2 at `x[6] = 2` and a constant engine. -/
theorem claim_C2_witness :
    hasNegEig ((fun _ : Fin 7 => (2 : ℚ)) 6) = true ∧
    f_mlnlike (fun _ => [1]) (fun _ : Fin 7 => (2 : ℚ)) =
      (false, ObjVal.sentinel) := by
  have h : hasNegEig ((fun _ : Fin 7 => (2 : ℚ)) 6) = true := by
    simp only [hasNegEig, eigvalsh2, List.any_cons, List.any_nil,
      Bool.or_false, Bool.or_eq_true, decide_eq_true_eq]
    left
    norm_num
  exact ⟨h, (claim_C2 (fun _ => [1]) (fun _ : Fin 7 => (2 : ℚ)) h).1⟩

/-- Claim C3: no objective wrapper ever feeds a zero to the logarithm.  When
the density vector `pp` has a zero entry, `f_mlnlike` returns the sentinel,
the MAR wrapper returns `np.inf`, and `f_mlnlike2` returns the partial sum
over the strictly positive entries when at most 7 entries are zero and the
sentinel otherwise; and every list of densities any wrapper passes to the
log-sum contains no zero. -/
theorem claim_C3 (engine : Params → List ℚ) (x : Fin 7 → ℚ) (pp : List ℚ)
    (hpp : engine (mkParams x) = pp) (hneg : hasNegEig (x 6) = false) :
    (0 < countZero pp → (f_mlnlike engine x).2 = ObjVal.sentinel) ∧
    (0 < countZero pp → (f_mlnlikeMAR engine x).2 = ObjVal.infty) ∧
    (0 < countZero pp → countZero pp ≤ 7 →
      (f_mlnlike2 engine x).2 =
        ObjVal.negLogSumDiv (pp.filter (fun q => decide (0 < q))) Ndata) ∧
    (7 < countZero pp → (f_mlnlike2 engine x).2 = ObjVal.sentinel) ∧
    (∀ l n, (f_mlnlike engine x).2 = ObjVal.negLogSumDiv l n → (0 : ℚ) ∉ l) ∧
    (∀ l n, (f_mlnlike2 engine x).2 = ObjVal.negLogSumDiv l n → (0 : ℚ) ∉ l) ∧
    (∀ l, (f_mlnlikeMAR engine x).2 = ObjVal.negLogSum l → (0 : ℚ) ∉ l) := by
  subst hpp
  refine ⟨?_, ?_, ?_, ?_, ?_, ?_, ?_⟩
  · intro h
    simp [f_mlnlike, hneg, h]
  · intro h
    simp [f_mlnlikeMAR, h]
  · intro h h7
    simp [f_mlnlike2, hneg, h, h7]
  · intro h7
    have h : 0 < countZero (engine (mkParams x)) :=
      lt_of_le_of_lt (Nat.zero_le 7) h7
    simp [f_mlnlike2, hneg, h, not_le.mpr h7]
  · intro l n hl
    by_cases hc : 0 < countZero (engine (mkParams x))
    · simp [f_mlnlike, hneg, hc] at hl
    · simp [f_mlnlike, hneg, hc] at hl
      have hz : countZero (engine (mkParams x)) = 0 := Nat.eq_zero_of_not_pos hc
      rcases hl with ⟨rfl, -⟩
      exact zero_notMem_of_countZero_eq_zero hz
  · intro l n hl
    by_cases hc : 0 < countZero (engine (mkParams x))
    · by_cases h7 : countZero (engine (mkParams x)) ≤ 7
      · simp [f_mlnlike2, hneg, hc, h7] at hl
        rcases hl with ⟨rfl, -⟩
        exact zero_notMem_filter_pos _
      · simp [f_mlnlike2, hneg, hc, h7] at hl
    · simp [f_mlnlike2, hneg, hc] at hl
      have hz : countZero (engine (mkParams x)) = 0 := Nat.eq_zero_of_not_pos hc
      rcases hl with ⟨rfl, -⟩
      exact zero_notMem_of_countZero_eq_zero hz
  · intro l hl
    by_cases hc : 0 < countZero (engine (mkParams x))
    · simp [f_mlnlikeMAR, hc] at hl
    · simp [f_mlnlikeMAR, hc] at hl
      have hz : countZero (engine (mkParams x)) = 0 := Nat.eq_zero_of_not_pos hc
      subst hl
      exact zero_notMem_of_countZero_eq_zero hz

/-- Witness for claim C3: with density vector `[0, 1]` (one zero entry) and
`rho = 0`, the MAR wrapper returns `np.inf`. -/
theorem claim_C3_witness :
    (f_mlnlikeMAR (fun _ => [0, 1]) (fun _ : Fin 7 => (0 : ℚ))).2 =
      ObjVal.infty := by
  have hneg : hasNegEig ((fun _ : Fin 7 => (0 : ℚ)) 6) = false := by
    simp only [hasNegEig, eigvalsh2, List.any_cons, List.any_nil,
      Bool.or_false, Bool.or_eq_false_iff, decide_eq_false_iff_not, not_lt]
    norm_num
  have h := claim_C3 (fun _ => [0, 1]) (fun _ : Fin 7 => (0 : ℚ)) [0, 1] rfl hneg
  exact h.2.1 (by norm_num [countZero, List.countP_cons])

/-- Claim C10: for `rho` within the optimizer bounds `[1e-3, 1-1e-3]` the
correlation matrix `R2 rho` has eigenvalues exactly `1 - rho` and `1 + rho`,
both strictly positive, so the eigenvalue guard of both wrappers of
`example_lognorm.py` is false and the engine is always invoked (the sentinel
branch for negative eigenvalues is unreachable). -/
theorem claim_C10 (engine : Params → List ℚ) (x : Fin 7 → ℚ)
    (h1 : 1 / 1000 ≤ x 6) (h2 : x 6 ≤ 1 - 1 / 1000) :
    (∀ m : ℚ, IsEigval (R2 (x 6)) m ↔ m = 1 - x 6 ∨ m = 1 + x 6) ∧
    (0 < 1 - x 6 ∧ 0 < 1 + x 6) ∧
    (∀ m : ℚ, IsEigval (R2 (x 6)) m → 0 < m) ∧
    hasNegEig (x 6) = false ∧
    (f_mlnlike engine x).1 = true ∧
    (f_mlnlike2 engine x).1 = true := by
  have hA : (0 : ℚ) < 1 - x 6 := by linarith
  have hB : (0 : ℚ) < 1 + x 6 := by linarith
  have hiff : ∀ m : ℚ, IsEigval (R2 (x 6)) m ↔ m = 1 - x 6 ∨ m = 1 + x 6 := by
    intro m
    rw [← eigvalsh2_correct]
    simp [eigvalsh2]
  have hneg : hasNegEig (x 6) = false := by
    simp only [hasNegEig, eigvalsh2, List.any_cons, List.any_nil,
      Bool.or_false, Bool.or_eq_false_iff, decide_eq_false_iff_not, not_lt]
    constructor <;> linarith
  refine ⟨hiff, ⟨hA, hB⟩, ?_, hneg, ?_, ?_⟩
  · intro m hm
    rcases (hiff m).mp hm with rfl | rfl
    · exact hA
    · exact hB
  · by_cases hc : 0 < countZero (engine (mkParams x)) <;>
      simp [f_mlnlike, hneg, hc]
  · by_cases hc : 0 < countZero (engine (mkParams x))
    · by_cases h7 : countZero (engine (mkParams x)) ≤ 7 <;>
        simp [f_mlnlike2, hneg, hc, h7]
    · simp [f_mlnlike2, hneg, hc]

lemma countZero_likeP_filter (jd : Row → ℚ) :
    ∀ rows : List Row,
      countZero (likeP jd rows) =
        countZero (likeP jd (rows.filter (fun r => !allMissing r))) := by
  intro rows
  induction rows with
  | nil => rfl
  | cons a t ih =>
    by_cases h : allMissing a = true
    · have h1 : rowDensity jd a = 1 := by simp [rowDensity, h]
      simp [likeP, List.filter_cons, h, countZero, List.countP_cons, h1] at ih ⊢
      exact ih
    · have hb : (!allMissing a) = true := by
        simp [Bool.not_eq_true', Bool.eq_false_iff, h]
      simp [likeP, List.filter_cons, hb, countZero, List.countP_cons] at ih ⊢
      rw [ih]

/-- Claim C1: a row with every dimension missing gets density exactly `1`
from the engine's density evaluation, hence never density `0`, and the
zero-density count inspected by the objective's guard is unchanged when all
completely-missing rows are removed — the guard is never triggered by an
all-missing row. -/
theorem claim_C1 (jd : Row → ℚ) (rows : List Row) (j : ℕ) (r : Row)
    (hr : rows[j]? = some r) (hm : allMissing r = true) :
    (likeP jd rows)[j]? = some 1 ∧
    (likeP jd rows)[j]? ≠ some 0 ∧
    countZero (likeP jd rows) =
      countZero (likeP jd (rows.filter (fun r => !allMissing r))) := by
  have ha : (likeP jd rows)[j]? = some 1 := by
    rw [likeP, List.getElem?_map, hr]
    simp [rowDensity, hm]
  refine ⟨ha, ?_, countZero_likeP_filter jd rows⟩
  rw [ha]
  simp

/-- Witness for claim C1: a one-row store whose only row is all-missing, with
an engine kernel that would return `0` on any observed part. -/
theorem claim_C1_witness :
    (likeP (fun _ => 0) [[none, none]])[0]? = some 1 :=
  (claim_C1 (fun _ => 0) [[none, none]] 0 [none, none] rfl rfl).1

lemma maskSelect_map_self {α : Type} (f : α → Bool) :
    ∀ y : List α, maskSelect (y.map f) y = y.filter f := by
  intro y
  induction y with
  | nil => rfl
  | cons a t ih =>
    by_cases h : f a = true <;> simp [maskSelect, List.filter_cons, h, ih]

lemma maskSelect_zip {α β : Type} (f : α → Bool) :
    ∀ (y : List α) (e : List β), y.length = e.length →
      (maskSelect (y.map f) y).zip (maskSelect (y.map f) e) =
        (y.zip e).filter (fun p => f p.1) := by
  intro y
  induction y with
  | nil =>
    intro e h
    rfl
  | cons a t ih =>
    intro e h
    cases e with
    | nil => simp at h
    | cons b eb =>
      have ht : t.length = eb.length := by simpa using h
      by_cases hf : f a = true <;>
        simp [maskSelect, hf, List.filter_cons, ih eb ht]

/-- Claim C7: the complete-case subset `ycc` consists of exactly the rows of
`y` with no missing dimension, in their original order; `eycc` selects the
uncertainty rows with the same mask, so values and uncertainties stay paired
row for row; and every row with a missing dimension is discarded. -/
theorem claim_C7 (y : List Row) (ey : List (List ℚ))
    (h : y.length = ey.length) :
    ycc y = y.filter isCompleteRow ∧
    (ycc y).zip (eycc y ey) = (y.zip ey).filter (fun p => isCompleteRow p.1) ∧
    ∀ r ∈ y, isCompleteRow r = false → r ∉ ycc y := by
  have h1 : ycc y = y.filter isCompleteRow := by
    simp only [ycc, completeMask]
    exact maskSelect_map_self isCompleteRow y
  have h2 : (ycc y).zip (eycc y ey) =
      (y.zip ey).filter (fun p => isCompleteRow p.1) := by
    simp only [ycc, eycc, completeMask]
    exact maskSelect_zip isCompleteRow y ey h
  refine ⟨h1, h2, ?_⟩
  intro r _ hinc hmem
  rw [h1] at hmem
  have hc := (List.mem_filter.mp hmem).2
  rw [hinc] at hc
  exact Bool.false_ne_true hc

/-- Witness for claim C7 on a concrete two-row table whose first row has a
missing dimension. -/
theorem claim_C7_witness :
    ycc [[some (1 : ℚ), none], [some 2, some 3]] = [[some 2, some 3]] := by
  have h := (claim_C7 [[some (1 : ℚ), none], [some 2, some 3]]
    [[5, 5], [6, 6]] rfl).1
  rw [h]
  rfl

/-- Claim C8: the DataFrame both examples hand to the Observation
constructor has exactly the columns `v0`, `v1`, `e_v0`, `e_v1` — the spec's
naming contract for D = 2 — with `v{i}` bound to the values of dimension `i`
and `e_v{i}` bound to the uncertainties of the same dimension, row for
row. -/
theorem claim_C8 (y0 y1 e0 e1 : List ℚ) :
    (mkExampleDF y0 y1 e0 e1).cols = contractCols 2 ∧
    (mkExampleDF y0 y1 e0 e1).cols = ["v0", "v1", "e_v0", "e_v1"] ∧
    getCol (mkExampleDF y0 y1 e0 e1) "v0" = some y0 ∧
    getCol (mkExampleDF y0 y1 e0 e1) "v1" = some y1 ∧
    getCol (mkExampleDF y0 y1 e0 e1) "e_v0" = some e0 ∧
    getCol (mkExampleDF y0 y1 e0 e1) "e_v1" = some e1 := by
  refine ⟨rfl, rfl, rfl, rfl, rfl, rfl⟩

/-- Witness for claim C10 at `rho = 1/2` and a constant engine. -/
theorem claim_C10_witness :
    (1 : ℚ) / 1000 ≤ (fun _ : Fin 7 => (1 : ℚ) / 2) 6 ∧
    (f_mlnlike (fun _ => [1]) (fun _ : Fin 7 => (1 : ℚ) / 2)).1 = true := by
  have h1 : (1 : ℚ) / 1000 ≤ (fun _ : Fin 7 => (1 : ℚ) / 2) 6 := by norm_num
  have h2 : (fun _ : Fin 7 => (1 : ℚ) / 2) 6 ≤ 1 - 1 / 1000 := by norm_num
  exact ⟨h1,
    (claim_C10 (fun _ => [1]) (fun _ : Fin 7 => (1 : ℚ) / 2) h1 h2).2.2.2.2.1⟩

/-- Claim C9: `logistic` is total and bounded — every value lies in `(0, 1]`,
arguments at or above 20 give exactly 1, arguments below 20 give
`exp(x)/(exp(x)+1)`, and the denominator is at least 1, so no division by
zero occurs. -/
theorem claim_C9 (x : ℝ) :
    0 < logistic x ∧ logistic x ≤ 1 ∧
    (20 ≤ x → logistic x = 1) ∧
    (x < 20 → logistic x = Real.exp x / (Real.exp x + 1)) ∧
    1 ≤ Real.exp x + 1 ∧ Real.exp x + 1 ≠ 0 := by
  have hexp : 0 < Real.exp x := Real.exp_pos x
  have hden : (0 : ℝ) < Real.exp x + 1 := by linarith
  have h1 : 1 ≤ Real.exp x + 1 := by linarith
  refine ⟨?_, ?_, ?_, ?_, h1, ne_of_gt hden⟩
  · by_cases h : x < 20
    · rw [logistic, if_pos h]
      exact div_pos hexp hden
    · rw [logistic, if_neg h]
      norm_num
  · by_cases h : x < 20
    · rw [logistic, if_pos h, div_le_one hden]
      linarith
    · rw [logistic, if_neg h]
  · intro h
    rw [logistic, if_neg (not_lt.mpr h)]
  · intro h
    rw [logistic, if_pos h]

/-- Witness for claim C9 at the inputs 25 (guarded branch) and 0 (exp
branch). -/
theorem claim_C9_witness :
    logistic 25 = 1 ∧ logistic 0 = Real.exp 0 / (Real.exp 0 + 1) :=
  ⟨(claim_C9 25).2.2.1 (by norm_num), (claim_C9 0).2.2.2.1 (by norm_num)⟩

/-- Claim C5: the probability of deleting column 1 of a row is
`logistic(y[0] - 3)` and that of deleting column 0 is `logistic(y[1] - 6)`,
each a function of the row's other, observed dimension only: changing the
cell's own value never changes its missingness probability. -/
theorem claim_C5 :
    (∀ y : Fin 2 → ℝ,
      missProbCol1 y = logistic (y 0 - 3) ∧
        missProbCol0 y = logistic (y 1 - 6)) ∧
    (∀ y z : Fin 2 → ℝ, y 0 = z 0 → missProbCol1 y = missProbCol1 z) ∧
    (∀ y z : Fin 2 → ℝ, y 1 = z 1 → missProbCol0 y = missProbCol0 z) := by
  refine ⟨fun y => ⟨rfl, rfl⟩, ?_, ?_⟩
  · intro y z h
    simp only [missProbCol1, h]
  · intro y z h
    simp only [missProbCol0, h]

/-- Witness for claim C5: two rows differing only in their column-1 value
have the same column-1 missingness probability. -/
theorem claim_C5_witness :
    missProbCol1 ![0, 5] = missProbCol1 ![0, 7] :=
  claim_C5.2.1 ![0, 5] ![0, 7] rfl

/-- Claim C6: the synthetic-data generation is an exact Gaussian-copula
transform — the error-free value `y_true = lognorm.ppf(norm.cdf(x), s, loc,
scale)` satisfies the round-trip identity `lognorm.cdf(y_true, s, loc,
scale) = norm.cdf(x)` whenever `scale > 0` and `s` is nonzero. -/
theorem claim_C6 (s loc scale x : ℝ) (hscale : 0 < scale) (hs : s ≠ 0) :
    lognormCDF s loc scale (yTrue s loc scale x) = normCDF x := by
  have hexp : 0 < Real.exp (s * normPPF (normCDF x)) := Real.exp_pos _
  have hlt : loc < yTrue s loc scale x := by
    have hpos : 0 < scale * Real.exp (s * normPPF (normCDF x)) :=
      mul_pos hscale hexp
    simp only [yTrue, lognormPPF]
    linarith
  rw [lognormCDF, if_pos hlt]
  have harg : (yTrue s loc scale x - loc) / scale =
      Real.exp (s * normPPF (normCDF x)) := by
    simp only [yTrue, lognormPPF]
    field_simp
  rw [harg, Real.log_exp, mul_div_cancel_left₀ _ hs]
  simp only [normPPF]
  exact Function.invFun_eq ⟨x, rfl⟩

/-- Witness for claim C6 at the standard log-normal parameters. -/
theorem claim_C6_witness :
    (0 : ℝ) < 1 ∧ lognormCDF 1 0 1 (yTrue 1 0 1 0) = normCDF 0 :=
  ⟨by norm_num, claim_C6 1 0 1 0 (by norm_num) (by norm_num)⟩

end Leopy
